import Mathlib

/-!
# Verification of `custom_channel` (src/src/lib.rs)

A shallow embedding of the multi-producer single-consumer channel from
`src/src/lib.rs`.  The shared state behind the mutex (`Inner`: the `VecDeque`
queue and the `senders` count) is a `List` plus a `Nat`; the `Receiver`'s
private buffer is another `List`.  Since every access to the shared state in
the source happens under one mutex, a concurrent execution linearizes into a
sequence of atomic operations; we model executions as lists of operations
(`Op`) interpreted by `stepExec`/`run`, with ghost fields recording the number
of live `Sender` handles and the logs of sent and received values.
-/

set_option autoImplicit false

namespace CustomChannel

variable {α : Type}

/-- Outcome of one completed attempt of `Receiver::recv`'s body.  `blocked`
marks the branch where the source parks the thread on the condition variable
(`self.shared.available.wait(inner)`): the call has not completed, and in a
linearized execution its effect takes place at a later, completing attempt. -/
inductive RecvResult (α : Type) where
  | value (t : α)
  | closed
  | blocked
deriving DecidableEq

/-- `struct Inner<T> { queue: VecDeque<T>, senders: usize }` — the data behind
the mutex. -/
structure Inner (α : Type) where
  queue : List α
  senders : Nat
deriving DecidableEq

/-- The state visible to the single consumer thread: the shared `Inner` (the
mutex contents) together with `Receiver::buffer`, the private local buffer. -/
structure State (α : Type) where
  inner : Inner α
  buffer : List α
deriving DecidableEq

/-- `pub fn channel<T>()`: fresh shared state with empty queue and
`senders: 1`, and a `Receiver` with an empty local buffer. -/
def channel (α : Type) : State α :=
  { inner := { queue := [], senders := 1 }, buffer := [] }

namespace Sender

/-- `Sender::send`: `inner.queue.push_back(t)` under the lock.  A total
function: it never fails, never blocks, and does not touch the receiver. -/
def send (inner : Inner α) (t : α) : Inner α :=
  { inner with queue := inner.queue ++ [t] }

/-- `Clone for Sender`: `inner.senders += 1` under the lock. -/
def clone (inner : Inner α) : Inner α :=
  { inner with senders := inner.senders + 1 }

/-- `Drop for Sender`: `inner.senders -= 1` on a `usize`, then
`was_last = inner.senders == 0`; `notify_one` is called exactly when
`was_last` holds, which the returned `Bool` records.  Decrementing a `usize`
that is already `0` is an arithmetic-underflow panic, modelled as `none`. -/
def drop (inner : Inner α) : Option (Inner α × Bool) :=
  match inner.senders with
  | 0 => none
  | n + 1 => some ({ inner with senders := n }, n == 0)

end Sender

namespace Receiver

/-- One iteration of the `loop` in `Receiver::recv`, run while holding the
lock with the given local buffer (empty whenever the source reaches this
point): `inner.queue.pop_front()`; on `Some(t)`,
`std::mem::swap(&mut self.buffer, &mut inner.queue)` — the local buffer takes
the remaining queue and the queue takes the old local buffer — and `t` is
returned; on `None` with `inner.senders == 0`, return `None`; otherwise wait
on the condition variable. -/
def recvLocked (inner : Inner α) (buffer : List α) :
    RecvResult α × Inner α × List α :=
  match inner.queue with
  | t :: rest => (RecvResult.value t, { inner with queue := buffer }, rest)
  | [] =>
    if inner.senders = 0 then (RecvResult.closed, inner, buffer)
    else (RecvResult.blocked, inner, buffer)

/-- `Receiver::recv`: first `self.buffer.pop_front()` with no locking; only
when that yields `None` (so the local buffer is `[]`) take the lock and run
the loop body. -/
def recv (s : State α) : RecvResult α × State α :=
  match s.buffer with
  | t :: rest => (RecvResult.value t, { s with buffer := rest })
  | [] =>
    match recvLocked s.inner [] with
    | (r, inner2, buffer2) => (r, { inner := inner2, buffer := buffer2 })

/-- `Iterator for Receiver`: `fn next(&mut self) { self.recv() }`. -/
def next (s : State α) : RecvResult α × State α :=
  recv s

/-- The drain step as the specification words it: move the shared queue's
entire contents into the local buffer in one swap, then pop and return the new
local buffer's front element (empty-queue cases as in the code). -/
def specDrain (inner : Inner α) (buffer : List α) :
    RecvResult α × Inner α × List α :=
  let newBuffer := inner.queue
  let newQueue := buffer
  match newBuffer with
  | t :: rest => (RecvResult.value t, { inner with queue := newQueue }, rest)
  | [] =>
    if inner.senders = 0 then (RecvResult.closed, inner, buffer)
    else (RecvResult.blocked, inner, buffer)

end Receiver

/-- The atomic operations a linearized execution is built from.  `send`,
`clone` and `dropSender` are performed by some live `Sender`; `recv` is a
completing `Receiver::recv` call; `dropReceiver` destroys the `Receiver`. -/
inductive Op (α : Type) where
  | send (t : α)
  | clone
  | dropSender
  | recv
  | dropReceiver
deriving DecidableEq

/-- An execution snapshot: the channel state plus ghost data — `live`, the
number of `Sender` instances not yet destroyed; `rxAlive`, whether the
`Receiver` still exists; `sent`, the values in the order their `send` calls
took effect; `received`, the values returned by `recv` calls, in order. -/
structure Exec (α : Type) where
  state : State α
  live : Nat
  rxAlive : Bool
  sent : List α
  received : List α
deriving DecidableEq

/-- The execution right after `channel()`: one `Sender`, one `Receiver`,
nothing sent or received. -/
def init (α : Type) : Exec α :=
  { state := channel α, live := 1, rxAlive := true, sent := [], received := [] }

/-- One linearized step.  `none` means the operation cannot take effect here:
its performer does not exist (no live `Sender`, no `Receiver`), the `recv`
attempt parks on the condition variable, or — for `dropSender` — the `usize`
decrement underflows. -/
def stepExec (e : Exec α) : Op α → Option (Exec α)
  | Op.send t =>
    if 1 ≤ e.live then
      some { e with
        state := { e.state with inner := Sender.send e.state.inner t },
        sent := e.sent ++ [t] }
    else none
  | Op.clone =>
    if 1 ≤ e.live then
      some { e with
        state := { e.state with inner := Sender.clone e.state.inner },
        live := e.live + 1 }
    else none
  | Op.dropSender =>
    if 1 ≤ e.live then
      match Sender.drop e.state.inner with
      | some (inner2, _) =>
        some { e with
          state := { e.state with inner := inner2 },
          live := e.live - 1 }
      | none => none
    else none
  | Op.recv =>
    if e.rxAlive then
      match Receiver.recv e.state with
      | (RecvResult.value t, s2) =>
        some { e with state := s2, received := e.received ++ [t] }
      | (RecvResult.closed, s2) => some { e with state := s2 }
      | (RecvResult.blocked, _) => none
    else none
  | Op.dropReceiver =>
    if e.rxAlive then
      some { e with state := { e.state with buffer := [] }, rxAlive := false }
    else none

/-- Run a linearized execution; `none` if some step cannot take effect. -/
def run (e : Exec α) : List (Op α) → Option (Exec α)
  | [] => some e
  | op :: ops =>
    match stepExec e op with
    | some e2 => run e2 ops
    | none => none

/-! ## Invariants of linearized executions -/

/-- The terminal configuration: empty buffer, empty queue, no live senders. -/
def ClosedExec (e : Exec α) : Prop :=
  e.state.buffer = [] ∧ e.state.inner.queue = [] ∧
  e.state.inner.senders = 0 ∧ e.live = 0

/-- Result of running `[send 1, send 2, recv, recv]` from `init`. -/
def execC1 : Exec Nat :=
  { state := { inner := { queue := [], senders := 1 }, buffer := [] },
    live := 1, rxAlive := true, sent := [1, 2], received := [1, 2] }

/-- Result of running `[send 7, dropSender, recv, recv]` from `init`. -/
def execC2 : Exec Nat :=
  { state := { inner := { queue := [], senders := 0 }, buffer := [] },
    live := 0, rxAlive := true, sent := [7], received := [7] }

/-- Result of running `[dropSender]` from `init`. -/
def execC3 : Exec Nat :=
  { state := { inner := { queue := [], senders := 0 }, buffer := [] },
    live := 0, rxAlive := true, sent := [], received := [] }

/-- Result of running `[clone, dropSender]` from `init`. -/
def execC4 : Exec Nat :=
  { state := { inner := { queue := [], senders := 1 }, buffer := [] },
    live := 1, rxAlive := true, sent := [], received := [] }

/-- Result of running `[dropReceiver]` from `init`: a live `Sender`, no
`Receiver`. -/
def execC6 : Exec Nat :=
  { state := { inner := { queue := [], senders := 1 }, buffer := [] },
    live := 1, rxAlive := false, sent := [], received := [] }

/-- The main invariant: the `senders` field agrees with the ghost number of
live `Sender` handles; while the `Receiver` exists, the send log decomposes as
the receive log followed by the local buffer followed by the shared queue —
i.e. pending values sit, in order, behind the already-delivered ones (once the
`Receiver` is destroyed its buffered values are discarded with it, so only the
prefix fact survives); and in any case the receive log is a prefix of the send
log. -/
def Inv (e : Exec α) : Prop :=
  e.state.inner.senders = e.live ∧
  (e.rxAlive = true → e.sent = e.received ++ e.state.buffer ++ e.state.inner.queue) ∧
  ∃ pending, e.sent = e.received ++ pending

theorem inv_init : Inv (init α) :=
  ⟨rfl, fun _ => rfl, [], rfl⟩


theorem inv_step {e e2 : Exec α} {op : Op α} (hInv : Inv e)
    (h : stepExec e op = some e2) : Inv e2 := by
  obtain ⟨⟨⟨q, ns⟩, buf⟩, lv, rx, sl, rl⟩ := e
  obtain ⟨h1, h2, pending, h3⟩ := hInv
  simp only [Inv] at h1 h2 h3 ⊢
  cases op with
  | send t =>
    simp only [stepExec, Sender.send] at h
    split at h
    · cases h
      refine ⟨h1, fun hrx => ?_, pending ++ [t], by simp [h3]⟩
      rw [h2 hrx]
      simp
    · cases h
  | clone =>
    simp only [stepExec, Sender.clone] at h
    split at h
    · cases h
      refine ⟨?_, h2, pending, h3⟩
      show ns + 1 = lv + 1
      omega
    · cases h
  | dropSender =>
    cases ns with
    | zero =>
      simp only [stepExec, Sender.drop] at h
      split at h <;> cases h
    | succ n =>
      simp only [stepExec, Sender.drop] at h
      split at h
      · cases h
        refine ⟨?_, h2, pending, h3⟩
        show n = lv - 1
        omega
      · cases h
  | recv =>
    cases rx with
    | false =>
      simp only [stepExec, Bool.false_eq_true, if_false] at h
      cases h
    | true =>
      cases buf with
      | cons t rest =>
        simp only [stepExec, Receiver.recv, if_true] at h
        cases h
        refine ⟨h1, fun _ => ?_, rest ++ q, ?_⟩ <;>
        · rw [h2 rfl]
          simp
      | nil =>
        cases q with
        | cons t rest =>
          simp only [stepExec, Receiver.recv, Receiver.recvLocked, if_true] at h
          cases h
          refine ⟨h1, fun _ => ?_, rest, ?_⟩ <;>
          · rw [h2 rfl]
            simp
        | nil =>
          cases ns with
          | zero =>
            simp only [stepExec, Receiver.recv, Receiver.recvLocked, if_true] at h
            cases h
            exact ⟨h1, h2, pending, h3⟩
          | succ n =>
            simp [stepExec, Receiver.recv, Receiver.recvLocked] at h
  | dropReceiver =>
    cases rx with
    | false =>
      simp only [stepExec, Bool.false_eq_true, if_false] at h
      cases h
    | true =>
      simp only [stepExec, if_true] at h
      cases h
      exact ⟨h1, fun hrx => by simp at hrx, pending, h3⟩

theorem inv_run {e e2 : Exec α} {ops : List (Op α)} (hInv : Inv e)
    (h : run e ops = some e2) : Inv e2 := by
  induction ops generalizing e with
  | nil =>
    simp only [run, Option.some.injEq] at h
    exact h ▸ hInv
  | cons op ops ih =>
    simp only [run] at h
    cases hs : stepExec e op with
    | none => rw [hs] at h; cases h
    | some e3 => rw [hs] at h; exact ih (inv_step hInv hs) h

theorem inv_of_run_init {ops : List (Op α)} {e : Exec α}
    (h : run (init α) ops = some e) : Inv e :=
  inv_run inv_init h

/-- Characterization of the "no value" result: `recv` returns `closed`
exactly when the local buffer is empty, the shared queue is empty, and the
producer count is zero. -/
theorem recv_closed_char (s : State α) :
    (Receiver.recv s).1 = RecvResult.closed ↔
      s.buffer = [] ∧ s.inner.queue = [] ∧ s.inner.senders = 0 := by
  obtain ⟨⟨q, ns⟩, buf⟩ := s
  cases buf with
  | cons t rest => simp [Receiver.recv]
  | nil =>
    cases q with
    | cons t rest => simp [Receiver.recv, Receiver.recvLocked]
    | nil =>
      cases ns with
      | zero => simp [Receiver.recv, Receiver.recvLocked]
      | succ n => simp [Receiver.recv, Receiver.recvLocked]

/-- A `recv` that returns `closed` leaves the state unchanged. -/
theorem recv_closed_fixes (s : State α)
    (h : (Receiver.recv s).1 = RecvResult.closed) : (Receiver.recv s).2 = s := by
  obtain ⟨hb, hq, hs⟩ := (recv_closed_char s).1 h
  obtain ⟨⟨q, ns⟩, buf⟩ := s
  simp only at hb hq hs
  subst hb hq hs
  rfl

theorem closed_step {e e2 : Exec α} {op : Op α} (hc : ClosedExec e)
    (h : stepExec e op = some e2) : ClosedExec e2 := by
  obtain ⟨⟨⟨q, ns⟩, buf⟩, lv, rx, sl, rl⟩ := e
  obtain ⟨hb, hq, hs, hl⟩ := hc
  simp only at hb hq hs hl
  subst hb hq hs hl
  cases op with
  | send t => simp [stepExec] at h
  | clone => simp [stepExec] at h
  | dropSender => simp [stepExec] at h
  | recv =>
    cases rx with
    | false => simp [stepExec] at h
    | true =>
      simp only [stepExec, Receiver.recv, Receiver.recvLocked, if_true] at h
      cases h
      exact ⟨rfl, rfl, rfl, rfl⟩
  | dropReceiver =>
    cases rx with
    | false => simp [stepExec] at h
    | true =>
      simp only [stepExec, if_true] at h
      cases h
      exact ⟨rfl, rfl, rfl, rfl⟩

theorem closed_run {e e2 : Exec α} {ops : List (Op α)} (hc : ClosedExec e)
    (h : run e ops = some e2) : ClosedExec e2 := by
  induction ops generalizing e with
  | nil =>
    simp only [run, Option.some.injEq] at h
    exact h ▸ hc
  | cons op ops ih =>
    simp only [run] at h
    cases hs : stepExec e op with
    | none => rw [hs] at h; cases h
    | some e3 => rw [hs] at h; exact ih (closed_step hc hs) h

/-! ## The claims -/

/-- Claim C1: FIFO delivery — along any linearized execution, the values
returned by the `recv` calls are exactly a prefix of the values enqueued, in
the order their `send` calls took effect, and while the `Receiver` exists the
send log decomposes as the receive log followed by the local buffer followed
by the shared queue, so moving values from the shared queue into the local
buffer never reorders them. -/
theorem fifo_delivery (ops : List (Op α)) (e : Exec α)
    (h : run (init α) ops = some e) :
    (e.rxAlive = true →
      e.sent = e.received ++ e.state.buffer ++ e.state.inner.queue) ∧
    ∃ pending, e.sent = e.received ++ pending := by
  obtain ⟨h1, h2, h3⟩ := inv_of_run_init h
  exact ⟨h2, h3⟩

/-- Witness for C1 on the execution `[send 1, send 2, recv, recv]`. -/
theorem fifo_delivery_witness :
    execC1.sent = execC1.received ++ execC1.state.buffer ++
      execC1.state.inner.queue ∧
    ∃ pending, execC1.sent = execC1.received ++ pending := by
  have h := fifo_delivery [Op.send 1, Op.send 2, Op.recv, Op.recv] execC1 rfl
  exact ⟨h.1 rfl, h.2⟩

/-- Claim C2: `recv` returns "no value" iff the local buffer is empty, the
shared queue is empty and the producer count is zero; consequently whenever it
returns "no value" along an execution, every value ever sent has already been
received (in order), so closing never discards pending values. -/
theorem recv_none_characterization (ops : List (Op α)) (e : Exec α)
    (h : run (init α) ops = some e) :
    ((Receiver.recv e.state).1 = RecvResult.closed ↔
      e.state.buffer = [] ∧ e.state.inner.queue = [] ∧
        e.state.inner.senders = 0) ∧
    (e.rxAlive = true → (Receiver.recv e.state).1 = RecvResult.closed →
      e.received = e.sent) := by
  obtain ⟨h1, h2, pending, h3⟩ := inv_of_run_init h
  refine ⟨recv_closed_char _, fun hrx hcl => ?_⟩
  obtain ⟨hb, hq, _⟩ := (recv_closed_char _).1 hcl
  have hd := h2 hrx
  rw [hb, hq] at hd
  simpa using hd.symm

/-- Witness for C2 on the execution `[send 7, dropSender, recv, recv]`. -/
theorem recv_none_characterization_witness :
    ((Receiver.recv execC2.state).1 = RecvResult.closed ↔
      execC2.state.buffer = [] ∧ execC2.state.inner.queue = [] ∧
        execC2.state.inner.senders = 0) ∧
    execC2.received = execC2.sent := by
  have h := recv_none_characterization
    [Op.send 7, Op.dropSender, Op.recv, Op.recv] execC2 rfl
  exact ⟨h.1, h.2 rfl rfl⟩

/-- Claim C3: closed-channel terminality — once a `recv` would return "no
value" (zero producers, empty queue, empty buffer), every state reachable by
any further valid operations still makes `recv` return "no value"; and one
pull of the `Receiver`-as-iterator is definitionally one `recv` call. -/
theorem closed_terminality (ops ops2 : List (Op α)) (e e2 : Exec α)
    (h : run (init α) ops = some e)
    (hclosed : (Receiver.recv e.state).1 = RecvResult.closed)
    (hcont : run e ops2 = some e2) :
    (Receiver.recv e2.state).1 = RecvResult.closed ∧
    Receiver.next e2.state = Receiver.recv e2.state := by
  obtain ⟨hb, hq, hs⟩ := (recv_closed_char _).1 hclosed
  obtain ⟨h1, _, _⟩ := inv_of_run_init h
  have hlive : e.live = 0 := by omega
  have hc2 := closed_run ⟨hb, hq, hs, hlive⟩ hcont
  exact ⟨(recv_closed_char _).2 ⟨hc2.1, hc2.2.1, hc2.2.2.1⟩, rfl⟩

/-- Witness for C3: after `[dropSender]` the channel is closed and stays
closed across a further `recv`. -/
theorem closed_terminality_witness :
    (Receiver.recv execC3.state).1 = RecvResult.closed ∧
    Receiver.next execC3.state = Receiver.recv execC3.state :=
  closed_terminality [Op.dropSender] [Op.recv] execC3 execC3 rfl rfl rfl

/-- Claim C4: producer-count accounting — along any execution the `senders`
field equals the ghost number of live `Sender` handles (so it is never
negative and starts at 1, the constructor's value); `clone` adds exactly one;
a successful `drop` subtracts exactly one and reports a signal (`notify_one`,
fired once) exactly when the new count is zero. -/
theorem producer_count_accounting (ops : List (Op α)) (e : Exec α)
    (h : run (init α) ops = some e) :
    e.state.inner.senders = e.live ∧
    (channel α).inner.senders = 1 ∧
    (∀ inner : Inner α, (Sender.clone inner).senders = inner.senders + 1) ∧
    (∀ (inner inner2 : Inner α) (b : Bool),
      Sender.drop inner = some (inner2, b) →
        inner.senders = inner2.senders + 1 ∧ (b = true ↔ inner2.senders = 0)) := by
  obtain ⟨h1, _, _⟩ := inv_of_run_init h
  refine ⟨h1, rfl, fun inner => rfl, fun inner inner2 b hdrop => ?_⟩
  obtain ⟨q2, ns2⟩ := inner
  cases ns2 with
  | zero => simp [Sender.drop] at hdrop
  | succ n =>
    simp only [Sender.drop, Option.some.injEq, Prod.mk.injEq] at hdrop
    obtain ⟨hi, hb⟩ := hdrop
    subst hi
    subst hb
    refine ⟨rfl, ?_⟩
    simp [beq_iff_eq]

/-- Witness for C4 on the execution `[clone, dropSender]` and the concrete
drop of the last of one sender. -/
theorem producer_count_accounting_witness :
    execC4.state.inner.senders = execC4.live ∧
    (channel Nat).inner.senders = 1 ∧
    (Sender.clone ({ queue := [], senders := 1 } : Inner Nat)).senders = 2 ∧
    ({ queue := ([] : List Nat), senders := 1 } : Inner Nat).senders =
      ({ queue := ([] : List Nat), senders := 0 } : Inner Nat).senders + 1 ∧
    (true = true ↔
      ({ queue := ([] : List Nat), senders := 0 } : Inner Nat).senders = 0) := by
  have h := producer_count_accounting [Op.clone, Op.dropSender] execC4 rfl
  have hd := h.2.2.2 { queue := [], senders := 1 } { queue := [], senders := 0 }
    true rfl
  exact ⟨h.1, h.2.1, h.2.2.1 _, hd.1, hd.2⟩

/-- Claim C5: drain-step equivalence — with an empty local buffer and a
non-empty shared queue, the spec's algorithm (swap the whole queue into the
buffer, then pop the new buffer's front) and the code's algorithm (pop the
queue's front, then swap the remainder into the buffer) agree: the returned
value is the original queue front, the buffer is left holding the remaining
values in order, and the shared queue is left empty. -/
theorem drain_equivalence (inner : Inner α) (t : α) (rest : List α)
    (hq : inner.queue = t :: rest) :
    Receiver.specDrain inner [] = Receiver.recvLocked inner [] ∧
    Receiver.recvLocked inner [] =
      (RecvResult.value t, { inner with queue := [] }, rest) := by
  obtain ⟨q, ns⟩ := inner
  simp only at hq
  subst hq
  exact ⟨rfl, rfl⟩

/-- Witness for C5 at the concrete queue `[4, 5, 6]`. -/
theorem drain_equivalence_witness :
    Receiver.specDrain ({ queue := [4, 5, 6], senders := 1 } : Inner Nat) [] =
      Receiver.recvLocked ({ queue := [4, 5, 6], senders := 1 } : Inner Nat) [] ∧
    Receiver.recvLocked ({ queue := [4, 5, 6], senders := 1 } : Inner Nat) [] =
      (RecvResult.value 4, { queue := [], senders := 1 }, [5, 6]) :=
  drain_equivalence { queue := [4, 5, 6], senders := 1 } 4 [5, 6] rfl

/-- Claim C6: `send` appends the value to the back of the shared queue
(length grows by one), is a total function — no error return, no capacity
check to block on — and still takes effect when the `Receiver` has been
destroyed, the value being retained in the queue. -/
theorem send_always_appends (e : Exec α) (t : α)
    (hlive : 1 ≤ e.live) (_hrx : e.rxAlive = false) :
    (∀ (inner : Inner α) (u : α),
      (Sender.send inner u).queue = inner.queue ++ [u] ∧
      (Sender.send inner u).queue.length = inner.queue.length + 1) ∧
    stepExec e (Op.send t) =
      some { e with
        state := { e.state with inner := Sender.send e.state.inner t },
        sent := e.sent ++ [t] } := by
  refine ⟨fun inner u => ⟨rfl, by simp [Sender.send]⟩, ?_⟩
  simp [stepExec, hlive]

/-- Witness for C6: sending after `[dropReceiver]` still succeeds and
appends. -/
theorem send_always_appends_witness :
    (Sender.send ({ queue := [1], senders := 1 } : Inner Nat) 2).queue =
      [1, 2] ∧
    stepExec execC6 (Op.send 42) =
      some { execC6 with
        state := { execC6.state with inner := Sender.send execC6.state.inner 42 },
        sent := execC6.sent ++ [42] } := by
  have h := send_always_appends execC6 42 (by decide) rfl
  exact ⟨(h.1 { queue := [1], senders := 1 } 2).1, h.2⟩

/-- Claim C7: fast path — whenever the local buffer is non-empty, `recv` pops
and returns its front element, leaving the shared state (`inner`) completely
untouched, whatever the queue contents and the producer count (including
zero). -/
theorem recv_fast_path (s : State α) (t : α) (rest : List α)
    (hb : s.buffer = t :: rest) :
    Receiver.recv s = (RecvResult.value t, { s with buffer := rest }) := by
  obtain ⟨⟨q, ns⟩, buf⟩ := s
  simp only at hb
  subst hb
  rfl

/-- Witness for C7: front of the buffer is served with a non-empty queue and
producer count zero. -/
theorem recv_fast_path_witness :
    Receiver.recv
        ({ inner := { queue := [9], senders := 0 }, buffer := [5, 8] } :
          State Nat) =
      (RecvResult.value 5,
        { inner := { queue := [9], senders := 0 }, buffer := [8] }) :=
  recv_fast_path { inner := { queue := [9], senders := 0 }, buffer := [5, 8] }
    5 [8] rfl

/-- Claim C8: constructor postcondition — `channel()` yields an empty queue,
producer count 1, an empty local buffer, and in the initial execution exactly
one live `Sender` and a live `Receiver`. -/
theorem channel_postcondition :
    (channel α).inner.queue = [] ∧ (channel α).inner.senders = 1 ∧
    (channel α).buffer = [] ∧ (init α).live = 1 ∧
    (init α).rxAlive = true ∧ (init α).state = channel α :=
  ⟨rfl, rfl, rfl, rfl, rfl, rfl⟩

/-- Claim C9: frame conditions — `send` leaves the producer count unchanged,
`clone` and `drop` leave the queue unchanged, and `recv` never modifies the
producer count on any path. -/
theorem frame_conditions :
    (∀ (inner : Inner α) (t : α),
      (Sender.send inner t).senders = inner.senders) ∧
    (∀ inner : Inner α, (Sender.clone inner).queue = inner.queue) ∧
    (∀ (inner inner2 : Inner α) (b : Bool),
      Sender.drop inner = some (inner2, b) → inner2.queue = inner.queue) ∧
    (∀ s : State α, ((Receiver.recv s).2).inner.senders = s.inner.senders) := by
  refine ⟨fun inner t => rfl, fun inner => rfl, fun inner inner2 b hdrop => ?_,
    fun s => ?_⟩
  · obtain ⟨q2, ns2⟩ := inner
    cases ns2 with
    | zero => simp [Sender.drop] at hdrop
    | succ n =>
      simp only [Sender.drop, Option.some.injEq, Prod.mk.injEq] at hdrop
      obtain ⟨hi, hb⟩ := hdrop
      subst hi
      rfl
  · obtain ⟨⟨q, ns⟩, buf⟩ := s
    cases buf with
    | cons t rest => rfl
    | nil =>
      cases q with
      | cons t rest => rfl
      | nil =>
        cases ns with
        | zero => rfl
        | succ n => rfl

/-- Witness for C9 at concrete states. -/
theorem frame_conditions_witness :
    (Sender.send ({ queue := [3], senders := 2 } : Inner Nat) 4).senders = 2 ∧
    (Sender.clone ({ queue := [3], senders := 2 } : Inner Nat)).queue = [3] ∧
    ({ queue := [3], senders := 0 } : Inner Nat).queue =
      ({ queue := [3], senders := 1 } : Inner Nat).queue ∧
    ((Receiver.recv
        ({ inner := { queue := [], senders := 5 }, buffer := [7] } :
          State Nat)).2).inner.senders = 5 := by
  have h := frame_conditions (α := Nat)
  exact ⟨h.1 _ 4, h.2.1 _, h.2.2.1 { queue := [3], senders := 1 }
    { queue := [3], senders := 0 } true rfl, h.2.2.2 _⟩

/-- Claim C10: destroy never underflows — in any reachable execution with at
least one live `Sender` (the situation in which `Drop for Sender` can run),
the `usize` decrement takes the non-underflow branch: `Sender.drop` returns a
new state whose count is exactly one less, and the panic branch is
unreachable. -/
theorem drop_no_underflow (ops : List (Op α)) (e : Exec α)
    (h : run (init α) ops = some e) (hlive : 1 ≤ e.live) :
    ∃ (inner2 : Inner α) (b : Bool),
      Sender.drop e.state.inner = some (inner2, b) ∧
      inner2.senders + 1 = e.state.inner.senders := by
  obtain ⟨h1, _, _⟩ := inv_of_run_init h
  rcases hs : e.state.inner.senders with _ | n
  · omega
  · refine ⟨{ e.state.inner with senders := n }, n == 0, ?_, by simp⟩
    simp [Sender.drop, hs]

/-- Witness for C10 at the initial execution (one live sender). -/
theorem drop_no_underflow_witness :
    ∃ (inner2 : Inner Nat) (b : Bool),
      Sender.drop (init Nat).state.inner = some (inner2, b) ∧
      inner2.senders + 1 = (init Nat).state.inner.senders :=
  drop_no_underflow [] (init Nat) rfl (by decide)

end CustomChannel
